import Mathlib

/-!
Shallow embedding of the line-profiler report builder from
`src/component/python/analysis/line_profiler/bootstrap.py`
(the functions `show_json` and `show_func`).

Modelling conventions:
* The raw per-line times in `timings` are modelled by `ℤ` (the profiler
  emits integer tick counts, and float addition of such ticks is exact in
  the ranges involved); the derived ratios (per-hit, percent, total seconds)
  are modelled by `ℚ`, exactly matching the float divisions on those values
  (no claim inspects float rounding).
* Line numbers and hit counts are `ℕ`.
* The external world accessed by `show_func` — `os.path.exists`,
  `linecache.getlines` and `inspect.getblock` — is abstracted into an
  environment record `Env`, mirroring the spec's `DetectBlockLength`
  abstraction for the language-specific block scanner.
* Python's `ZeroDivisionError` (raised by `float(time) / nhits` when
  `nhits == 0`) is modelled with `Except Unit`: `Except.error ()` is the
  raised exception, which `show_json` propagates.
* `show_func` returning Python `False` (the dropped-function case) is
  modelled as `Except.ok none`.
* The string fields `'Hits'`, `'Time'`, `'Per Hit'` and `'% Time'` of a row
  are either the Python empty string `''` (modelled `none`) or a number
  (modelled `some q`, carrying the exact value that Python formats with
  `%5.1f`; the decimal rendering itself is display-only and not modelled).
  Likewise `'Total time'` and `'Timer unit'` carry the numeric value that
  Python renders with `%g`.
-/

namespace LineProfiler

/-- One raw profiler sample `(lineno, nhits, time)` as it appears in the
`timings` sequence handed to `show_func`. -/
structure Timing where
  lineno : Nat
  nhits : Nat
  time : ℤ
deriving DecidableEq, Repr

/-- The identity of a profiled function: the key
`(filename, start_lineno, func_name)` of the `stats` mapping. -/
abbrev FKey := String × Nat × String

/-- The `stats` mapping of `show_json`, as an association list
(a Python dict has pairwise distinct keys). -/
abbrev Stats := List (FKey × List Timing)

/-- The ambient host facilities read by `show_func`:
`os.path.exists`, `linecache.getlines` and `inspect.getblock`. -/
structure Env where
  pathExists : String → Bool
  getlines : String → List String
  getblock : List String → List String

/-- One element of `retval['lines']`: the per-line dict built by `show_func`.
`none` in a statistics field models the Python empty string `''`. -/
structure Row where
  lineNum : Nat
  hits : Option Nat
  time : Option ℤ
  perHit : Option ℚ
  percent : Option ℚ
  contents : String
deriving DecidableEq, Repr

/-- The dict `retval` returned by `show_func` for one function.
`file` and `function` are `Option` because the source sets the keys
`'File'` and `'Function'` only inside the
`os.path.exists(filename) or filename.startswith("<ipython-input-")`
branch: in the missing-source fallback the keys are absent. -/
structure FuncRecord where
  totalTime : ℚ
  file : Option String
  function : Option String
  lines : List Row
deriving DecidableEq, Repr

/-- The dict `retval` returned by `show_json`:
`'Timer unit'` (numeric value of the `'%g s'` label) and `'functions'`. -/
structure Report where
  timerUnit : ℚ
  functions : List FuncRecord
deriving DecidableEq, Repr

/-- Python `max(l)` on a list of naturals (the source only applies it to
nonempty lists; the `0` default is never reached there). -/
def listMax : List Nat → Nat
  | [] => 0
  | x :: xs => xs.foldl Nat.max x

/-- Python `min(l)` on a list of naturals (the source only applies it to
nonempty lists; the `0` default is never reached there). -/
def listMin : List Nat → Nat
  | [] => 0
  | x :: xs => xs.foldl Nat.min x

/-- Python `line.rstrip('\n').rstrip('\r')`: strip all trailing newline
characters, then all trailing carriage returns. -/
def rstripNLCR (s : String) : String :=
  String.mk (((s.data.reverse.dropWhile (· = '\n')).dropWhile (· = '\r')).reverse)

/-- The dense per-line index `d` built by the loop
`for lineno, nhits, time in timings: d[lineno] = ...`:
a later sample with the same line number overwrites an earlier one,
so `d.get lineno` is the last matching sample. -/
def lastSample (timings : List Timing) (l : Nat) : Option Timing :=
  (timings.filter (fun t => t.lineno == l)).getLast?

/-- The `sublines` computed by `show_func`: the contiguous source block via
`inspect.getblock(all_lines[start_lineno-1:])` when the file exists on disk
or is an interactive cell, otherwise
`[''] * (max(linenos) - min(min(linenos), start_lineno) + 1)`. -/
def sublinesOf (env : Env) (filename : String) (start_lineno : Nat)
    (linenos : List Nat) : List String :=
  if env.pathExists filename || filename.startsWith "<ipython-input-" then
    env.getblock ((env.getlines filename).drop (start_lineno - 1))
  else
    List.replicate (listMax linenos - Nat.min (listMin linenos) start_lineno + 1) ""

/-- One row of the final loop of `show_func`:
`nhits, time, per_hit, percent = d.get(lineno, empty)` paired with the
source line, whose trailing `'\n'`/`'\r'` are stripped. -/
def mkRow (timings : List Timing) (total_time : ℤ) (l : Nat) (src : String) : Row :=
  match lastSample timings l with
  | some t =>
      { lineNum := l, hits := some t.nhits, time := some t.time,
        perHit := some ((t.time : ℚ) / (t.nhits : ℚ)),
        percent := some (100 * (t.time : ℚ) / (total_time : ℚ)),
        contents := rstripNLCR src }
  | none =>
      { lineNum := l, hits := none, time := none, perHit := none,
        percent := none, contents := rstripNLCR src }

/-- The dict `retval` assembled by `show_func` when it neither drops the
function nor raises.  The keys `'File'` and `'Function'` are set only inside
the `os.path.exists(filename) or filename.startswith("<ipython-input-")`
branch of the source; rows are emitted for
`lineno in range(start_lineno, start_lineno + len(sublines))`
(modelled by `List.range'`), zipped with `sublines`. -/
def funcRecord (env : Env) (filename : String) (start_lineno : Nat)
    (func_name : String) (timings : List Timing) (unit : ℚ) : FuncRecord :=
  let total_time : ℤ := (timings.map (·.time)).sum
  let inSource := env.pathExists filename || filename.startsWith "<ipython-input-"
  let sublines := sublinesOf env filename start_lineno (timings.map (·.lineno))
  { totalTime := (total_time : ℚ) * unit
    file := if inSource then some filename else none
    function := if inSource then some (func_name ++ " at line " ++ toString start_lineno) else none
    lines := (List.range' start_lineno sublines.length).zipWith
        (mkRow timings total_time) sublines }

/-- Model of `show_func(filename, start_lineno, func_name, timings, unit)`.

* `total_time` sums all sample times; if it is `0` the function is dropped
  (`return False`, here `Except.ok none`).
* The `d`-building loop evaluates `float(time) / nhits` for every sample;
  a sample with `nhits == 0` raises `ZeroDivisionError` (here
  `Except.error ()`).  The branch computing `sublines` runs before that loop
  and cannot raise (`timings` is nonempty whenever `total_time ≠ 0`). -/
def show_func (env : Env) (filename : String) (start_lineno : Nat)
    (func_name : String) (timings : List Timing) (unit : ℚ) :
    Except Unit (Option FuncRecord) :=
  if (timings.map (·.time)).sum = 0 then Except.ok none
  else if timings.any (fun t => t.nhits == 0) then Except.error ()
  else Except.ok (some (funcRecord env filename start_lineno func_name timings unit))

/-- Lexicographic order on the keys of the `stats` dict, as Python's
`sorted` compares the tuples `(fn, lineno, name)` (a dict's keys are
distinct, so the tuples' second components never tie-break). -/
def keyLeP (a b : FKey) : Prop :=
  a.1 < b.1 ∨ (a.1 = b.1 ∧ (a.2.1 < b.2.1 ∨ (a.2.1 = b.2.1 ∧ a.2.2 ≤ b.2.2)))

instance (a b : FKey) : Decidable (keyLeP a b) := by
  unfold keyLeP; infer_instance

/-- Comparison used to model `sorted(stats.items())`: items are compared by
their keys. -/
def itemLe (a b : FKey × List Timing) : Bool := decide (keyLeP a.1 b.1)

/-- Model of `sorted(stats.items())`. -/
def sortedItems (stats : Stats) : Stats := stats.mergeSort itemLe

/-- The `for (fn, lineno, name), timings in sorted(stats.items())` loop of
`show_json`: build each function's record and append it when it is truthy
(a raised `ZeroDivisionError` aborts the whole loop). -/
def show_json_aux (env : Env) (unit : ℚ) : Stats → Except Unit (List FuncRecord)
  | [] => Except.ok []
  | (k, tms) :: rest =>
    match show_func env k.1 k.2.1 k.2.2 tms unit with
    | Except.error e => Except.error e
    | Except.ok none => show_json_aux env unit rest
    | Except.ok (some fr) =>
      match show_json_aux env unit rest with
      | Except.error e => Except.error e
      | Except.ok fns => Except.ok (fr :: fns)

/-- Model of `show_json(stats, unit)`: `'Timer unit'` carries the value rendered by
`'%g s' % unit`, and `'functions'` collects the per-function records in
sorted key order. -/
def show_json (env : Env) (stats : Stats) (unit : ℚ) : Except Unit Report :=
  match show_json_aux env unit (sortedItems stats) with
  | Except.error e => Except.error e
  | Except.ok fns => Except.ok { timerUnit := unit, functions := fns }

/-- Key-order embedding into the lexicographic product order: `keyLeP`
agrees with `≤` on `Lex (String × Lex (Nat × String))`. -/
def keyEmbed (a : FKey) : Lex (String × Lex (Nat × String)) :=
  toLex (a.1, toLex (a.2.1, a.2.2))

/-- Strict part of the item order used for uniqueness of the sorted
arrangement (two distinct dict keys never compare equal). -/
def itemLt (a b : FKey × List Timing) : Prop := keyLeP a.1 b.1 ∧ a.1 ≠ b.1

/-- The aggregate of the `'Time'` column over a row list, an empty-string
`'Time'` entry contributing nothing. -/
def rowTimeSum (rows : List Row) : ℤ := (rows.map (fun r => r.time.getD 0)).sum

/-- The time shown on the row of line `l`: that of the last sample at `l`,
or `0` when the line is unsampled. -/
def lineTime (timings : List Timing) (l : Nat) : ℤ :=
  match lastSample timings l with
  | some t => t.time
  | none => 0

/-- State-threaded variant of the `show_json` loop.  The store is the pair
`(stats, unit)` of caller-owned inputs; every statement of the Python source
only READS them (`sorted(stats.items())`, the `stats[fn, lineno, name]`
lookup, arithmetic on `unit`), writing exclusively to fresh locals
(`retval`, `d`, `lines`), so each step passes the store through unchanged:
there is no write to thread. -/
def show_json_aux_st (env : Env) :
    Stats → Stats × ℚ → (Except Unit (List FuncRecord)) × (Stats × ℚ)
  | [], st => (Except.ok [], st)
  | (k, tms) :: rest, st =>
    match show_func env k.1 k.2.1 k.2.2 tms st.2 with
    | Except.error e => (Except.error e, st)
    | Except.ok none => show_json_aux_st env rest st
    | Except.ok (some fr) =>
      match show_json_aux_st env rest st with
      | (Except.error e, st') => (Except.error e, st')
      | (Except.ok fns, st') => (Except.ok (fr :: fns), st')

/-- State-threaded `show_json`: returns the report together with the final
store. -/
def show_json_st (env : Env) (st : Stats × ℚ) :
    Except Unit Report × (Stats × ℚ) :=
  match show_json_aux_st env (sortedItems st.1) st with
  | (Except.error e, st') => (Except.error e, st')
  | (Except.ok fns, st') => (Except.ok { timerUnit := st'.2, functions := fns }, st')

/-- The environment of the counterexample/witness inputs: no file exists on
disk, so `show_func` always takes the missing-source fallback there. -/
def env0 : Env := ⟨fun _ => false, fun _ => [], fun _ => []⟩

/-! ## Basic inversion and helper lemmas -/

/-- Inversion: `show_func` returns a record exactly when the total time is nonzero and
no sample has a zero hit count, and then the record is `funcRecord`. -/
theorem show_func_ok_some_iff (env : Env) (fn : String) (s : Nat) (n : String)
    (tms : List Timing) (u : ℚ) (fr : FuncRecord) :
    show_func env fn s n tms u = Except.ok (some fr) ↔
      (tms.map (·.time)).sum ≠ 0 ∧ tms.any (fun t => t.nhits == 0) = false ∧
        fr = funcRecord env fn s n tms u := by
  unfold show_func
  split_ifs with h1 h2
  · simp [h1]
  · simp [h2]
  · simp only [Except.ok.injEq, Option.some.injEq]
    constructor
    · intro h
      exact ⟨h1, by simpa using h2, h.symm⟩
    · rintro ⟨-, -, rfl⟩
      rfl

/-- Inversion: `show_func` drops a function exactly when its total time is zero. -/
theorem show_func_ok_none_iff (env : Env) (fn : String) (s : Nat) (n : String)
    (tms : List Timing) (u : ℚ) :
    show_func env fn s n tms u = Except.ok none ↔ (tms.map (·.time)).sum = 0 := by
  unfold show_func
  split_ifs with h1 h2
  · simp [h1]
  · simp [h1]
  · simp [h1]

theorem mem_zipWith_ex {α β γ : Type _} {f : α → β → γ} {c : γ} :
    ∀ {as : List α} {bs : List β}, c ∈ List.zipWith f as bs →
      ∃ a b, a ∈ as ∧ b ∈ bs ∧ c = f a b := by
  intro as
  induction as with
  | nil => intro bs h; simp at h
  | cons a as ih =>
    intro bs h
    cases bs with
    | nil => simp at h
    | cons b bs =>
      rw [List.zipWith_cons_cons, List.mem_cons] at h
      rcases h with h | h
      · exact ⟨a, b, List.mem_cons_self .., List.mem_cons_self .., h⟩
      · obtain ⟨a', b', ha, hb, hc⟩ := ih h
        exact ⟨a', b', List.mem_cons_of_mem _ ha, List.mem_cons_of_mem _ hb, hc⟩

/-- Mapping a projection that only depends on the first zipped component. -/
theorem map_zipWith_left {α β γ δ : Type _} (f : α → β → γ) (g : γ → δ) (h : α → δ)
    (H : ∀ a b, g (f a b) = h a) :
    ∀ (as : List α) (bs : List β), as.length ≤ bs.length →
      (List.zipWith f as bs).map g = as.map h := by
  intro as
  induction as with
  | nil => intro bs _; simp
  | cons a as ih =>
    intro bs hlen
    cases bs with
    | nil => simp at hlen
    | cons b bs =>
      rw [List.zipWith_cons_cons, List.map_cons, List.map_cons, H,
        ih bs (by simpa using hlen)]

theorem mkRow_contents (timings : List Timing) (tt : ℤ) (l : Nat) (src : String) :
    (mkRow timings tt l src).contents = rstripNLCR src := by
  unfold mkRow
  cases lastSample timings l <;> rfl

theorem mkRow_lineNum (timings : List Timing) (tt : ℤ) (l : Nat) (src : String) :
    (mkRow timings tt l src).lineNum = l := by
  unfold mkRow
  cases lastSample timings l <;> rfl

/-! ## C1 -/

/-- C1 counterexample.  The claim says a sample with `hit_count = 0` is
excluded from the per-line index and its line appears as a zero-defaulted
row.  On the input `timings = [(1, 0, 0), (2, 1, 5)]` (total time `5 ≠ 0`)
the `d`-building loop instead evaluates `float(0) / 0` and raises
`ZeroDivisionError`: `show_func` produces no row at all, not a
zero-defaulted one. -/
theorem zero_hit_not_excluded_cex :
    show_func env0 "a.py" 1 "f" [⟨1, 0, 0⟩, ⟨2, 1, 5⟩] 1 = Except.error () ∧
    ¬ ∃ o, show_func env0 "a.py" 1 "f" [⟨1, 0, 0⟩, ⟨2, 1, 5⟩] 1 = Except.ok o := by
  have h : show_func env0 "a.py" 1 "f" [⟨1, 0, 0⟩, ⟨2, 1, 5⟩] 1 = Except.error () := by
    rfl
  refine ⟨h, ?_⟩
  rintro ⟨o, ho⟩
  rw [h] at ho
  exact Except.noConfusion ho

/-- C1 (amended): a sample with `hit_count = 0` in a function whose total
time is nonzero is not excluded from the index computation — the division
`float(time) / nhits` raises `ZeroDivisionError`, so `show_func` aborts with
an exception instead of emitting any row. -/
theorem show_func_zero_hit_raises (env : Env) (fn : String) (s : Nat) (n : String)
    (tms : List Timing) (u : ℚ) (hz : ∃ t ∈ tms, t.nhits = 0)
    (ht : (tms.map (·.time)).sum ≠ 0) :
    show_func env fn s n tms u = Except.error () := by
  unfold show_func
  rw [if_neg ht, if_pos]
  rw [List.any_eq_true]
  obtain ⟨t, htm, hn⟩ := hz
  exact ⟨t, htm, by simp [hn]⟩

/-- Witness for `show_func_zero_hit_raises` at the concrete input
`timings = [(1, 0, 0), (2, 1, 5)]`. -/
theorem show_func_zero_hit_raises_witness :
    (∃ t ∈ [Timing.mk 1 0 0, Timing.mk 2 1 5], t.nhits = 0) ∧
    (([Timing.mk 1 0 0, Timing.mk 2 1 5].map (·.time)).sum ≠ 0) ∧
    show_func env0 "b.py" 1 "g" [⟨1, 0, 0⟩, ⟨2, 1, 5⟩] 1 = Except.error () :=
  ⟨by decide, by decide,
    show_func_zero_hit_raises env0 "b.py" 1 "g" [⟨1, 0, 0⟩, ⟨2, 1, 5⟩] 1
      ⟨⟨1, 0, 0⟩, by decide, rfl⟩ (by decide)⟩

/-! ## C3 -/

/-- C3: on a stats mapping whose single function has a source path that does
not exist on disk and is not an interactive cell, `show_json` emits the
function object without the `'File'` and `'Function'` keys (`none` here),
because the source assigns those keys only inside the
`os.path.exists or startswith("<ipython-input-")` branch — contradicting the
claim (and the function's own docstring) that every emitted object carries
all four keys. -/
theorem missing_source_drops_file_function_keys :
    show_json env0 [(("nosuch.py", 10, "f"), [⟨10, 1, 5⟩])] 1 =
      Except.ok
        { timerUnit := 1,
          functions := [funcRecord env0 "nosuch.py" 10 "f" [⟨10, 1, 5⟩] 1] } ∧
    (funcRecord env0 "nosuch.py" 10 "f" [⟨10, 1, 5⟩] 1).file = none ∧
    (funcRecord env0 "nosuch.py" 10 "f" [⟨10, 1, 5⟩] 1).function = none := by
  refine ⟨?_, rfl, rfl⟩
  unfold show_json sortedItems
  rw [List.mergeSort_singleton]
  rfl

/-! ## C5 -/

/-- C5: when the source path neither exists on disk nor denotes an
interactive cell, an emitted record has exactly
`max(linenos) − min(min(linenos), start_lineno) + 1` rows and every row's
`'Line Contents'` is the empty string. -/
theorem show_func_missing_source (env : Env) (fn : String) (s : Nat) (n : String)
    (tms : List Timing) (u : ℚ) (fr : FuncRecord)
    (hne : env.pathExists fn = false)
    (hni : fn.startsWith "<ipython-input-" = false)
    (hok : show_func env fn s n tms u = Except.ok (some fr)) :
    fr.lines.length =
      listMax (tms.map (·.lineno)) - Nat.min (listMin (tms.map (·.lineno))) s + 1 ∧
    ∀ row ∈ fr.lines, row.contents = "" := by
  rw [show_func_ok_some_iff] at hok
  obtain ⟨ht, hz, rfl⟩ := hok
  constructor
  · simp [funcRecord, sublinesOf, hne, hni]
  · intro row hrow
    simp only [funcRecord, sublinesOf, hne, hni, Bool.false_or, if_neg] at hrow
    obtain ⟨l, src, hl, hsrc, rfl⟩ := mem_zipWith_ex hrow
    rw [List.eq_of_mem_replicate hsrc, mkRow_contents]
    rfl

/-- Witness for `show_func_missing_source`: scenario C, samples at lines 100
and 105 with `start_line = 98` yield 8 rows, all with empty contents. -/
theorem show_func_missing_source_witness :
    env0.pathExists "x.py" = false ∧
    "x.py".startsWith "<ipython-input-" = false ∧
    show_func env0 "x.py" 98 "f" [⟨100, 1, 1⟩, ⟨105, 1, 1⟩] 1 =
      Except.ok (some (funcRecord env0 "x.py" 98 "f" [⟨100, 1, 1⟩, ⟨105, 1, 1⟩] 1)) ∧
    (funcRecord env0 "x.py" 98 "f" [⟨100, 1, 1⟩, ⟨105, 1, 1⟩] 1).lines.length = 8 ∧
    ∀ row ∈ (funcRecord env0 "x.py" 98 "f" [⟨100, 1, 1⟩, ⟨105, 1, 1⟩] 1).lines,
      row.contents = "" := by
  have h := show_func_missing_source env0 "x.py" 98 "f" [⟨100, 1, 1⟩, ⟨105, 1, 1⟩] 1
    (funcRecord env0 "x.py" 98 "f" [⟨100, 1, 1⟩, ⟨105, 1, 1⟩] 1) rfl (by decide) (by rfl)
  exact ⟨rfl, by decide, by rfl, by rw [h.1]; decide, h.2⟩

/-! ## C7 -/

theorem funcRecord_lines (env : Env) (fn : String) (s : Nat) (n : String)
    (tms : List Timing) (u : ℚ) :
    (funcRecord env fn s n tms u).lines =
      (List.range' s (sublinesOf env fn s (tms.map (·.lineno))).length).zipWith
        (mkRow tms ((tms.map (·.time)).sum))
        (sublinesOf env fn s (tms.map (·.lineno))) := rfl

theorem mkRow_of_not_sampled (timings : List Timing) (tt : ℤ) (l : Nat) (src : String)
    (h : lastSample timings l = none) :
    mkRow timings tt l src =
      { lineNum := l, hits := none, time := none, perHit := none,
        percent := none, contents := rstripNLCR src } := by
  unfold mkRow
  rw [h]

/-- C7: an emitted record has one row per line of the block (`sublines`),
with line numbers `start_lineno, start_lineno + 1, …` in increasing order,
and a line with no sample gets a row whose `'Hits'`, `'Time'`, `'Per Hit'`
and `'% Time'` fields are all the empty string, rather than being
omitted. -/
theorem show_func_rows_cover_block (env : Env) (fn : String) (s : Nat) (n : String)
    (tms : List Timing) (u : ℚ) (fr : FuncRecord)
    (hok : show_func env fn s n tms u = Except.ok (some fr)) :
    fr.lines.length = (sublinesOf env fn s (tms.map (·.lineno))).length ∧
    fr.lines.map (·.lineNum) =
      List.range' s (sublinesOf env fn s (tms.map (·.lineno))).length ∧
    ∀ row ∈ fr.lines, (∀ t ∈ tms, t.lineno ≠ row.lineNum) →
      row.hits = none ∧ row.time = none ∧ row.perHit = none ∧ row.percent = none := by
  rw [show_func_ok_some_iff] at hok
  obtain ⟨ht, hz, rfl⟩ := hok
  refine ⟨by simp [funcRecord], ?_, ?_⟩
  · rw [funcRecord_lines,
      map_zipWith_left (mkRow tms ((tms.map (·.time)).sum)) (fun x => x.lineNum) id
        (fun a b => mkRow_lineNum tms ((tms.map (·.time)).sum) a b)
        (List.range' s (sublinesOf env fn s (tms.map (·.lineno))).length)
        (sublinesOf env fn s (tms.map (·.lineno))) (by simp),
      List.map_id]
  · intro row hrow hnot
    rw [funcRecord_lines] at hrow
    obtain ⟨l, src, hl, hsrc, rfl⟩ := mem_zipWith_ex hrow
    rw [mkRow_lineNum] at hnot
    have hlast : lastSample tms l = none := by
      unfold lastSample
      rw [List.getLast?_eq_none_iff]
      rw [List.filter_eq_nil_iff]
      intro t htm
      simp only [beq_iff_eq]
      exact hnot t htm
    rw [mkRow_of_not_sampled _ _ _ _ hlast]
    exact ⟨rfl, rfl, rfl, rfl⟩

/-- Witness for `show_func_rows_cover_block`: samples at lines 10 and 12
with `start_lineno = 10` yield the 3 rows `10, 11, 12`, the unsampled
line 11 rendered with all-empty statistics. -/
theorem show_func_rows_cover_block_witness :
    show_func env0 "w.py" 10 "f" [⟨10, 1, 1⟩, ⟨12, 1, 2⟩] 1 =
      Except.ok (some (funcRecord env0 "w.py" 10 "f" [⟨10, 1, 1⟩, ⟨12, 1, 2⟩] 1)) ∧
    (funcRecord env0 "w.py" 10 "f" [⟨10, 1, 1⟩, ⟨12, 1, 2⟩] 1).lines.length = 3 ∧
    ((funcRecord env0 "w.py" 10 "f" [⟨10, 1, 1⟩, ⟨12, 1, 2⟩] 1).lines.length =
        (sublinesOf env0 "w.py" 10 ([Timing.mk 10 1 1, Timing.mk 12 1 2].map (·.lineno))).length ∧
      (funcRecord env0 "w.py" 10 "f" [⟨10, 1, 1⟩, ⟨12, 1, 2⟩] 1).lines.map (·.lineNum) =
        List.range' 10 (sublinesOf env0 "w.py" 10 ([Timing.mk 10 1 1, Timing.mk 12 1 2].map (·.lineno))).length ∧
      ∀ row ∈ (funcRecord env0 "w.py" 10 "f" [⟨10, 1, 1⟩, ⟨12, 1, 2⟩] 1).lines,
        (∀ t ∈ [Timing.mk 10 1 1, Timing.mk 12 1 2], t.lineno ≠ row.lineNum) →
        row.hits = none ∧ row.time = none ∧ row.perHit = none ∧ row.percent = none) :=
  ⟨rfl, by decide,
    show_func_rows_cover_block env0 "w.py" 10 "f" [⟨10, 1, 1⟩, ⟨12, 1, 2⟩] 1
      (funcRecord env0 "w.py" 10 "f" [⟨10, 1, 1⟩, ⟨12, 1, 2⟩] 1) rfl⟩

/-! ## C2 -/

theorem mkRow_time_getD (timings : List Timing) (tt : ℤ) (l : Nat) (src : String) :
    (mkRow timings tt l src).time.getD 0 = lineTime timings l := by
  unfold mkRow lineTime
  cases lastSample timings l <;> rfl

theorem sum_map_ite_insert (R : List Nat) (a : Nat) (x : ℤ) (g : Nat → ℤ)
    (hnd : R.Nodup) (ha : a ∈ R) (hga : g a = 0) :
    (R.map (fun l => if l = a then x else g l)).sum = x + (R.map g).sum := by
  induction R with
  | nil => simp at ha
  | cons r R ih =>
    rcases List.mem_cons.mp ha with rfl | ha'
    · rw [List.map_cons, List.map_cons, List.sum_cons, List.sum_cons, if_pos rfl]
      have hRg : R.map (fun l => if l = a then x else g l) = R.map g := by
        apply List.map_congr_left
        intro l hlR
        rw [if_neg]
        rintro rfl
        exact (List.nodup_cons.mp hnd).1 hlR
      rw [hRg, hga]
      ring
    · have hr : r ≠ a := by
        rintro rfl
        exact (List.nodup_cons.mp hnd).1 ha'
      rw [List.map_cons, List.map_cons, List.sum_cons, List.sum_cons, if_neg hr,
        ih (List.nodup_cons.mp hnd).2 ha']
      ring

/-- Partitioning the sample times over a duplicate-free line range: the sum
of the per-line times over the range equals the sum of all sample times,
provided sample line numbers are distinct and all fall in the range. -/
theorem sum_lineTime_eq (R : List Nat) :
    ∀ tms : List Timing, R.Nodup → (tms.map (·.lineno)).Nodup →
      (∀ t ∈ tms, t.lineno ∈ R) →
      (R.map (lineTime tms)).sum = (tms.map (·.time)).sum := by
  intro tms
  induction tms with
  | nil =>
    intro _ _ _
    have : R.map (lineTime []) = R.map (fun _ => (0 : ℤ)) :=
      List.map_congr_left (fun l _ => rfl)
    simp [this]
  | cons t tms ih =>
    intro hR hnd hin
    have hnotin : t.lineno ∉ tms.map (·.lineno) := (List.nodup_cons.mp hnd).1
    have hfilter : tms.filter (fun s => s.lineno == t.lineno) = [] := by
      rw [List.filter_eq_nil_iff]
      intro s hs
      simp only [beq_iff_eq]
      intro he
      exact hnotin (by rw [← he]; exact List.mem_map_of_mem _ hs)
    have hz0 : lineTime tms t.lineno = 0 := by
      unfold lineTime lastSample
      rw [hfilter]
      rfl
    have hstep : ∀ l ∈ R, lineTime (t :: tms) l =
        if l = t.lineno then t.time else lineTime tms l := by
      intro l _
      unfold lineTime lastSample
      rw [List.filter_cons]
      by_cases hl : l = t.lineno
      · subst hl
        rw [if_pos (by simp), if_pos rfl, hfilter]
        rfl
      · rw [if_neg (by simpa using fun he => hl he.symm), if_neg hl]
    rw [List.map_congr_left hstep,
      sum_map_ite_insert R t.lineno t.time (lineTime tms) hR
        (hin t (List.mem_cons_self ..)) hz0,
      ih hR (List.nodup_cons.mp hnd).2
        (fun s hs => hin s (List.mem_cons_of_mem _ hs))]
    simp

/-- C2 counterexample.  The claim asserts the row times always add up to the
aggregate total, "including samples whose line numbers fall outside the
emitted row range".  With one sample at line 5 but `start_lineno = 10` and
no source on disk, the single emitted row is line 10 with an empty `'Time'`
field: the rows sum to `0` while the aggregate total is `100`. -/
theorem sum_rows_ne_total_cex :
    show_func env0 "gone.py" 10 "f" [⟨5, 1, 100⟩] 1 =
      Except.ok (some (funcRecord env0 "gone.py" 10 "f" [⟨5, 1, 100⟩] 1)) ∧
    rowTimeSum (funcRecord env0 "gone.py" 10 "f" [⟨5, 1, 100⟩] 1).lines ≠
      ([Timing.mk 5 1 100].map (·.time)).sum ∧
    rowTimeSum (funcRecord env0 "gone.py" 10 "f" [⟨5, 1, 100⟩] 1).lines = 0 ∧
    ([Timing.mk 5 1 100].map (·.time)).sum = 100 :=
  ⟨rfl, by decide, by decide, by decide⟩

/-- C2 (amended): the row times of an emitted record add up to the
function's aggregate total when the sample line numbers are pairwise
distinct and all fall inside the emitted row range
`[start_lineno, start_lineno + len(sublines) − 1]`; a sample outside that
range (or shadowed by a later duplicate) is counted in the aggregate but on
no row. -/
theorem sum_rows_eq_total (env : Env) (fn : String) (s : Nat) (n : String)
    (tms : List Timing) (u : ℚ) (fr : FuncRecord)
    (hok : show_func env fn s n tms u = Except.ok (some fr))
    (hnd : (tms.map (·.lineno)).Nodup)
    (hin : ∀ t ∈ tms, t.lineno ∈
      List.range' s (sublinesOf env fn s (tms.map (·.lineno))).length) :
    rowTimeSum fr.lines = (tms.map (·.time)).sum := by
  rw [show_func_ok_some_iff] at hok
  obtain ⟨ht, hz, rfl⟩ := hok
  unfold rowTimeSum
  rw [funcRecord_lines,
    map_zipWith_left (mkRow tms ((tms.map (·.time)).sum)) (fun r => r.time.getD 0)
      (lineTime tms) (fun a b => mkRow_time_getD tms ((tms.map (·.time)).sum) a b)
      (List.range' s (sublinesOf env fn s (tms.map (·.lineno))).length)
      (sublinesOf env fn s (tms.map (·.lineno))) (by simp)]
  exact sum_lineTime_eq _ tms (List.nodup_range' ..) hnd hin

/-- Witness for `sum_rows_eq_total`: two distinct in-range samples, rows
summing to the aggregate `3`. -/
theorem sum_rows_eq_total_witness :
    show_func env0 "y.py" 10 "f" [⟨10, 5, 1⟩, ⟨11, 5, 2⟩] 1 =
      Except.ok (some (funcRecord env0 "y.py" 10 "f" [⟨10, 5, 1⟩, ⟨11, 5, 2⟩] 1)) ∧
    ([Timing.mk 10 5 1, Timing.mk 11 5 2].map (·.lineno)).Nodup ∧
    rowTimeSum (funcRecord env0 "y.py" 10 "f" [⟨10, 5, 1⟩, ⟨11, 5, 2⟩] 1).lines =
      ([Timing.mk 10 5 1, Timing.mk 11 5 2].map (·.time)).sum ∧
    rowTimeSum (funcRecord env0 "y.py" 10 "f" [⟨10, 5, 1⟩, ⟨11, 5, 2⟩] 1).lines = 3 :=
  ⟨rfl, by decide,
    sum_rows_eq_total env0 "y.py" 10 "f" [⟨10, 5, 1⟩, ⟨11, 5, 2⟩] 1
      (funcRecord env0 "y.py" 10 "f" [⟨10, 5, 1⟩, ⟨11, 5, 2⟩] 1) rfl (by decide)
      (by decide),
    by decide⟩

/-! ## C6 -/

theorem keyLeP_iff (a b : FKey) : keyLeP a b ↔ keyEmbed a ≤ keyEmbed b := by
  unfold keyEmbed keyLeP
  rw [Prod.Lex.le_iff, Prod.Lex.le_iff]

theorem keyEmbed_inj (a b : FKey) (h : keyEmbed a = keyEmbed b) : a = b := by
  obtain ⟨a1, a2, a3⟩ := a
  obtain ⟨b1, b2, b3⟩ := b
  have h1 : a1 = b1 := congrArg (fun x => (ofLex x).1) h
  have h2 : a2 = b2 := congrArg (fun x => (ofLex (ofLex x).2).1) h
  have h3 : a3 = b3 := congrArg (fun x => (ofLex (ofLex x).2).2) h
  subst h1
  subst h2
  subst h3
  rfl

theorem keyLeP_total (a b : FKey) : keyLeP a b ∨ keyLeP b a := by
  rw [keyLeP_iff, keyLeP_iff]
  exact le_total _ _

theorem keyLeP_trans (a b c : FKey) (h1 : keyLeP a b) (h2 : keyLeP b c) : keyLeP a c := by
  rw [keyLeP_iff] at h1 h2 ⊢
  exact le_trans h1 h2

theorem keyLeP_antisymm (a b : FKey) (h1 : keyLeP a b) (h2 : keyLeP b a) : a = b := by
  rw [keyLeP_iff] at h1 h2
  exact keyEmbed_inj a b (le_antisymm h1 h2)

theorem itemLe_trans (a b c : FKey × List Timing)
    (hab : itemLe a b = true) (hbc : itemLe b c = true) : itemLe a c = true :=
  decide_eq_true (keyLeP_trans _ _ _ (of_decide_eq_true hab) (of_decide_eq_true hbc))

theorem itemLe_total (a b : FKey × List Timing) : (itemLe a b || itemLe b a) = true := by
  rcases keyLeP_total a.1 b.1 with h | h
  · rw [Bool.or_eq_true]
    exact Or.inl (decide_eq_true h)
  · rw [Bool.or_eq_true]
    exact Or.inr (decide_eq_true h)

/-- Two arrangements of the same stats items, both sorted by key and with
pairwise distinct keys, coincide. -/
theorem sorted_unique (l₁ l₂ : Stats) (hperm : l₁.Perm l₂)
    (hs₁ : l₁.Pairwise (fun a b => itemLe a b = true))
    (hs₂ : l₂.Pairwise (fun a b => itemLe a b = true))
    (hnd : (l₁.map (fun p => p.1)).Nodup) : l₁ = l₂ := by
  haveI : IsAntisymm (FKey × List Timing) itemLt :=
    ⟨fun a b hab hba => absurd (keyLeP_antisymm _ _ hab.1 hba.1) hab.2⟩
  have hnd₂ : (l₂.map (fun p => p.1)).Nodup := ((hperm.map _).nodup_iff).mp hnd
  have hne₁ : l₁.Pairwise (fun a b => a.1 ≠ b.1) := List.pairwise_map.mp hnd
  have hne₂ : l₂.Pairwise (fun a b => a.1 ≠ b.1) := List.pairwise_map.mp hnd₂
  have hs₁' : l₁.Pairwise itemLt :=
    (hs₁.and hne₁).imp (fun h => ⟨of_decide_eq_true h.1, h.2⟩)
  have hs₂' : l₂.Pairwise itemLt :=
    (hs₂.and hne₂).imp (fun h => ⟨of_decide_eq_true h.1, h.2⟩)
  exact List.eq_of_perm_of_sorted hperm hs₁' hs₂'

/-- C6: `show_json` iterates the stats items in sorted key order: the
iterated arrangement `sortedItems stats` is lexicographically sorted on
`(source_path, start_line, function_name)` and is a permutation of the
input, and — keys being distinct, as in a dict — the output of `show_json`
is the same for any permutation of the input items, i.e. a function of the
key set alone. -/
theorem show_json_sorted_order (env : Env) (stats stats' : Stats) (u : ℚ)
    (hperm : stats.Perm stats') (hnd : (stats.map (fun p => p.1)).Nodup) :
    (sortedItems stats).Pairwise (fun a b => keyLeP a.1 b.1) ∧
    (sortedItems stats).Perm stats ∧
    show_json env stats u = show_json env stats' u := by
  have hs₁ : (sortedItems stats).Pairwise (fun a b => itemLe a b = true) :=
    List.sorted_mergeSort itemLe_trans itemLe_total stats
  have hp₁ : (sortedItems stats).Perm stats := List.mergeSort_perm stats itemLe
  refine ⟨hs₁.imp (fun h => of_decide_eq_true h), hp₁, ?_⟩
  have hp₂ : (sortedItems stats').Perm stats' := List.mergeSort_perm stats' itemLe
  have hs₂ : (sortedItems stats').Pairwise (fun a b => itemLe a b = true) :=
    List.sorted_mergeSort itemLe_trans itemLe_total stats'
  have hperm' : (sortedItems stats).Perm (sortedItems stats') :=
    (hp₁.trans hperm).trans hp₂.symm
  have hnd₁ : ((sortedItems stats).map (fun p => p.1)).Nodup :=
    ((hp₁.map _).nodup_iff).mpr hnd
  have heq : sortedItems stats = sortedItems stats' :=
    sorted_unique _ _ hperm' hs₁ hs₂ hnd₁
  unfold show_json
  rw [heq]

/-- Witness for `show_json_sorted_order`: two items with distinct keys given
in reversed order produce the same report. -/
theorem show_json_sorted_order_witness :
    ([(("s.py", 2, "g"), ([] : List Timing)), (("s.py", 1, "f"), [])].Perm
      [(("s.py", 1, "f"), ([] : List Timing)), (("s.py", 2, "g"), [])]) ∧
    (([(("s.py", 2, "g"), ([] : List Timing)), (("s.py", 1, "f"), [])].map
        (fun p => p.1)).Nodup) ∧
    ((sortedItems [(("s.py", 2, "g"), ([] : List Timing)), (("s.py", 1, "f"), [])]).Pairwise
        (fun a b => keyLeP a.1 b.1) ∧
      (sortedItems [(("s.py", 2, "g"), ([] : List Timing)), (("s.py", 1, "f"), [])]).Perm
        [(("s.py", 2, "g"), ([] : List Timing)), (("s.py", 1, "f"), [])] ∧
      show_json env0 [(("s.py", 2, "g"), ([] : List Timing)), (("s.py", 1, "f"), [])] 1 =
        show_json env0 [(("s.py", 1, "f"), ([] : List Timing)), (("s.py", 2, "g"), [])] 1) :=
  ⟨List.Perm.swap _ _ _, by decide,
    show_json_sorted_order env0
      [(("s.py", 2, "g"), []), (("s.py", 1, "f"), [])]
      [(("s.py", 1, "f"), []), (("s.py", 2, "g"), [])] 1
      (List.Perm.swap _ _ _) (by decide)⟩

/-! ## C4 -/

theorem show_json_aux_cons (env : Env) (u : ℚ) (k : FKey) (tms : List Timing)
    (rest : Stats) :
    show_json_aux env u ((k, tms) :: rest) =
      match show_func env k.1 k.2.1 k.2.2 tms u with
      | Except.error e => Except.error e
      | Except.ok none => show_json_aux env u rest
      | Except.ok (some fr) =>
        match show_json_aux env u rest with
        | Except.error e => Except.error e
        | Except.ok fns => Except.ok (fr :: fns) := rfl

/-- Per-item accounting for the `show_json` loop: when no exception occurs,
each item contributes exactly one record unless its total time is zero, in
which case it contributes none. -/
theorem show_json_aux_length (env : Env) (u : ℚ) :
    ∀ (L : Stats) (fns : List FuncRecord),
      show_json_aux env u L = Except.ok fns →
      fns.length ≤ L.length ∧
        (fns.length < L.length ↔ ∃ p ∈ L, (p.2.map (·.time)).sum = 0) := by
  intro L
  induction L with
  | nil =>
    intro fns h
    simp only [show_json_aux, Except.ok.injEq] at h
    subst h
    simp
  | cons p L ih =>
    intro fns h
    obtain ⟨k, tms⟩ := p
    rw [show_json_aux_cons] at h
    cases hf : show_func env k.1 k.2.1 k.2.2 tms u with
    | error e =>
      rw [hf] at h
      exact absurd h (by simp)
    | ok o =>
      rw [hf] at h
      cases o with
      | none =>
        have hzero := (show_func_ok_none_iff env k.1 k.2.1 k.2.2 tms u).mp hf
        obtain ⟨hle, _⟩ := ih fns h
        refine ⟨Nat.le_succ_of_le hle, ?_, fun _ => Nat.lt_succ_of_le hle⟩
        intro _
        exact ⟨(k, tms), List.mem_cons_self .., hzero⟩
      | some fr =>
        cases haux : show_json_aux env u L with
        | error e =>
          rw [haux] at h
          exact absurd h (by simp)
        | ok fns' =>
          rw [haux] at h
          have hfns : fns = fr :: fns' := by
            simpa [eq_comm] using h
          subst hfns
          have hne : (tms.map (·.time)).sum ≠ 0 :=
            ((show_func_ok_some_iff env k.1 k.2.1 k.2.2 tms u fr).mp hf).1
          obtain ⟨hle, hlt⟩ := ih fns' haux
          refine ⟨by simpa using Nat.succ_le_succ hle, ?_, ?_⟩
          · intro hlt2
            obtain ⟨q, hq, hq0⟩ := hlt.mp (by simpa using hlt2)
            exact ⟨q, List.mem_cons_of_mem _ hq, hq0⟩
          · rintro ⟨q, hq, hq0⟩
            rcases List.mem_cons.mp hq with rfl | hq'
            · exact absurd hq0 hne
            · simpa using Nat.succ_lt_succ (hlt.mpr ⟨q, hq', hq0⟩)

/-- C4: when `show_json` returns a report, it has at most one function
object per stats entry, and strictly fewer exactly when some entry's
samples sum to zero total time — such a function is silently dropped. -/
theorem show_json_function_count (env : Env) (stats : Stats) (u : ℚ) (r : Report)
    (hok : show_json env stats u = Except.ok r) :
    r.functions.length ≤ stats.length ∧
      (r.functions.length < stats.length ↔
        ∃ p ∈ stats, (p.2.map (·.time)).sum = 0) := by
  unfold show_json at hok
  cases haux : show_json_aux env u (sortedItems stats) with
  | error e =>
    rw [haux] at hok
    exact absurd hok (by simp)
  | ok fns =>
    rw [haux] at hok
    have hr : r.functions = fns := by
      have : ({ timerUnit := u, functions := fns } : Report) = r := by
        simpa using hok
      rw [← this]
    have hperm : (sortedItems stats).Perm stats := List.mergeSort_perm stats itemLe
    obtain ⟨hle, hlt⟩ := show_json_aux_length env u (sortedItems stats) fns haux
    rw [hr, ← hperm.length_eq]
    refine ⟨hle, ?_⟩
    rw [hlt]
    constructor
    · rintro ⟨p, hp, h0⟩
      exact ⟨p, hperm.mem_iff.mp hp, h0⟩
    · rintro ⟨p, hp, h0⟩
      exact ⟨p, hperm.mem_iff.mpr hp, h0⟩

/-- Witness for `show_json_function_count`: of two functions, the one whose
samples sum to zero time is dropped, so one report for two stats entries. -/
theorem show_json_function_count_witness :
    show_json env0 [(("s.py", 1, "f"), [⟨1, 1, 2⟩]), (("s.py", 2, "g"), [⟨2, 1, 0⟩])] 1 =
      Except.ok
        { timerUnit := 1,
          functions := [funcRecord env0 "s.py" 1 "f" [⟨1, 1, 2⟩] 1] } ∧
    ((funcRecord env0 "s.py" 1 "f" [⟨1, 1, 2⟩] 1) ::
        ([] : List FuncRecord)).length ≤
      [(("s.py", 1, "f"), [Timing.mk 1 1 2]), (("s.py", 2, "g"), [Timing.mk 2 1 0])].length ∧
    ([funcRecord env0 "s.py" 1 "f" [⟨1, 1, 2⟩] 1].length <
        [(("s.py", 1, "f"), [Timing.mk 1 1 2]), (("s.py", 2, "g"), [Timing.mk 2 1 0])].length ↔
      ∃ p ∈ [(("s.py", 1, "f"), [Timing.mk 1 1 2]), (("s.py", 2, "g"), [Timing.mk 2 1 0])],
        (p.2.map (·.time)).sum = 0) := by
  have hsort : sortedItems
      [(("s.py", 1, "f"), [Timing.mk 1 1 2]), (("s.py", 2, "g"), [Timing.mk 2 1 0])] =
      [(("s.py", 1, "f"), [Timing.mk 1 1 2]), (("s.py", 2, "g"), [Timing.mk 2 1 0])] := by
    apply List.mergeSort_of_sorted
    simp only [List.pairwise_cons, List.mem_singleton, List.not_mem_nil,
      and_true, forall_eq, IsEmpty.forall_iff, implies_true]
    simp only [itemLe, decide_eq_true_iff, keyLeP]
    exact ⟨Or.inr ⟨trivial, Or.inl (by norm_num)⟩, trivial, List.Pairwise.nil⟩
  have hok : show_json env0
      [(("s.py", 1, "f"), [Timing.mk 1 1 2]), (("s.py", 2, "g"), [Timing.mk 2 1 0])] 1 =
      Except.ok
        { timerUnit := 1,
          functions := [funcRecord env0 "s.py" 1 "f" [⟨1, 1, 2⟩] 1] } := by
    unfold show_json
    rw [hsort]
    rfl
  have hmain := show_json_function_count env0
    [(("s.py", 1, "f"), [Timing.mk 1 1 2]), (("s.py", 2, "g"), [Timing.mk 2 1 0])] 1
    { timerUnit := 1, functions := [funcRecord env0 "s.py" 1 "f" [⟨1, 1, 2⟩] 1] } hok
  exact ⟨hok, hmain.1, hmain.2⟩

/-! ## C9 -/

theorem mkRow_of_sampled (timings : List Timing) (tt : ℤ) (l : Nat) (src : String)
    (t : Timing) (h : lastSample timings l = some t) :
    mkRow timings tt l src =
      { lineNum := l, hits := some t.nhits, time := some t.time,
        perHit := some ((t.time : ℚ) / (t.nhits : ℚ)),
        percent := some (100 * (t.time : ℚ) / (tt : ℚ)),
        contents := rstripNLCR src } := by
  unfold mkRow
  rw [h]

/-- C9: when two or more samples share a line number, the emitted row for
that line carries the hit count, time, per-hit and percent of the LAST such
sample (`d[lineno]` is overwritten by later samples), while `'Total time'` —
the percentage denominator — sums the times of ALL samples, duplicates
included. -/
theorem show_func_duplicate_last_wins (env : Env) (fn : String) (s : Nat) (n : String)
    (tms : List Timing) (u : ℚ) (fr : FuncRecord) (l : Nat) (t : Timing)
    (hok : show_func env fn s n tms u = Except.ok (some fr))
    (hdup : 2 ≤ (tms.filter (fun x => x.lineno == l)).length)
    (hlast : (tms.filter (fun x => x.lineno == l)).getLast? = some t) :
    (∀ row ∈ fr.lines, row.lineNum = l →
      row.hits = some t.nhits ∧ row.time = some t.time ∧
      row.perHit = some ((t.time : ℚ) / (t.nhits : ℚ)) ∧
      row.percent = some (100 * (t.time : ℚ) / (((tms.map (·.time)).sum : ℤ) : ℚ))) ∧
    fr.totalTime = (((tms.map (·.time)).sum : ℤ) : ℚ) * u := by
  rw [show_func_ok_some_iff] at hok
  obtain ⟨ht, hz, rfl⟩ := hok
  refine ⟨?_, rfl⟩
  intro row hrow hl
  rw [funcRecord_lines] at hrow
  obtain ⟨l', src, hl', hsrc, rfl⟩ := mem_zipWith_ex hrow
  rw [mkRow_lineNum] at hl
  subst hl
  rw [mkRow_of_sampled tms _ l' src t hlast]
  exact ⟨rfl, rfl, rfl, rfl⟩

/-- Witness for `show_func_duplicate_last_wins`: two samples at line 10;
the row shows the later one (2 hits, 4 ticks), the total is 6 + 4 = 10. -/
theorem show_func_duplicate_last_wins_witness :
    show_func env0 "d.py" 10 "f" [⟨10, 3, 6⟩, ⟨10, 2, 4⟩] 1 =
      Except.ok (some (funcRecord env0 "d.py" 10 "f" [⟨10, 3, 6⟩, ⟨10, 2, 4⟩] 1)) ∧
    2 ≤ ([Timing.mk 10 3 6, Timing.mk 10 2 4].filter (fun x => x.lineno == 10)).length ∧
    ([Timing.mk 10 3 6, Timing.mk 10 2 4].filter (fun x => x.lineno == 10)).getLast? =
      some (Timing.mk 10 2 4) ∧
    (([Timing.mk 10 3 6, Timing.mk 10 2 4].map (·.time)).sum = 10) ∧
    ((∀ row ∈ (funcRecord env0 "d.py" 10 "f" [⟨10, 3, 6⟩, ⟨10, 2, 4⟩] 1).lines,
        row.lineNum = 10 →
        row.hits = some (Timing.mk 10 2 4).nhits ∧
        row.time = some (Timing.mk 10 2 4).time ∧
        row.perHit = some (((Timing.mk 10 2 4).time : ℚ) / ((Timing.mk 10 2 4).nhits : ℚ)) ∧
        row.percent = some (100 * ((Timing.mk 10 2 4).time : ℚ) /
          ((([Timing.mk 10 3 6, Timing.mk 10 2 4].map (·.time)).sum : ℤ) : ℚ))) ∧
      (funcRecord env0 "d.py" 10 "f" [⟨10, 3, 6⟩, ⟨10, 2, 4⟩] 1).totalTime =
        ((([Timing.mk 10 3 6, Timing.mk 10 2 4].map (·.time)).sum : ℤ) : ℚ) * 1) :=
  ⟨rfl, by decide, by decide, by decide,
    show_func_duplicate_last_wins env0 "d.py" 10 "f" [⟨10, 3, 6⟩, ⟨10, 2, 4⟩] 1
      (funcRecord env0 "d.py" 10 "f" [⟨10, 3, 6⟩, ⟨10, 2, 4⟩] 1) 10
      (Timing.mk 10 2 4) rfl (by decide) (by decide)⟩

/-! ## C8 -/

/-- C8: `show_json` is deterministic — its output is a function of the
stats mapping, the unit scalar, and the observed file-system contents
(existence, file lines, block extents) alone; two calls on identical inputs
yield identical reports, with no dependence on hidden state. -/
theorem show_json_deterministic (env₁ env₂ : Env) (stats₁ stats₂ : Stats) (u₁ u₂ : ℚ)
    (hpe : ∀ p, env₁.pathExists p = env₂.pathExists p)
    (hgl : ∀ p, env₁.getlines p = env₂.getlines p)
    (hgb : ∀ ls, env₁.getblock ls = env₂.getblock ls)
    (hs : stats₁ = stats₂) (hu : u₁ = u₂) :
    show_json env₁ stats₁ u₁ = show_json env₂ stats₂ u₂ := by
  subst hs
  subst hu
  have henv : env₁ = env₂ := by
    cases env₁
    cases env₂
    simp only [Env.mk.injEq]
    exact ⟨funext hpe, funext hgl, funext hgb⟩
  rw [henv]

/-- Witness for `show_json_deterministic` at a concrete input. -/
theorem show_json_deterministic_witness :
    (∀ p, env0.pathExists p = env0.pathExists p) ∧
    show_json env0 [(("a.py", 1, "f"), [⟨1, 1, 1⟩])] 1 =
      show_json env0 [(("a.py", 1, "f"), [⟨1, 1, 1⟩])] 1 :=
  ⟨fun _ => rfl,
    show_json_deterministic env0 env0 [(("a.py", 1, "f"), [⟨1, 1, 1⟩])]
      [(("a.py", 1, "f"), [⟨1, 1, 1⟩])] 1 1
      (fun _ => rfl) (fun _ => rfl) (fun _ => rfl) rfl rfl⟩

/-! ## C10 -/

theorem show_json_aux_st_frame (env : Env) :
    ∀ (L : Stats) (st : Stats × ℚ),
      show_json_aux_st env L st = (show_json_aux env st.2 L, st) := by
  intro L
  induction L with
  | nil => intro st; rfl
  | cons p L ih =>
    intro st
    obtain ⟨k, tms⟩ := p
    cases hf : show_func env k.1 k.2.1 k.2.2 tms st.2 with
    | error e => simp only [show_json_aux_st, show_json_aux, hf]
    | ok o =>
      cases o with
      | none => simp only [show_json_aux_st, show_json_aux, hf, ih st]
      | some fr =>
        simp only [show_json_aux_st, show_json_aux, hf, ih st]
        cases show_json_aux env st.2 L <;> rfl

/-- C10: the report builder does not mutate its inputs.  Threading the
caller's store (the stats mapping and the unit scalar) through every step
of the loop, the final store equals the initial one, and the result is the
pure function of the inputs — the report is built entirely in fresh
structures. -/
theorem show_json_preserves_inputs (env : Env) (st : Stats × ℚ) :
    show_json_st env st = (show_json env st.1 st.2, st) := by
  unfold show_json_st show_json
  rw [show_json_aux_st_frame]
  cases show_json_aux env st.2 (sortedItems st.1) <;> rfl

end LineProfiler
